import Mathlib

/-!
Verification of the retrieval core of a RAG news chatbot
(`backend/services/vectorService.js` and `backend/services/ragService.js`),
shallowly embedded in Lean 4.

Conventions of the embedding:
* JavaScript strings are Lean `String`s; `String.prototype.includes` is the
  executable substring test `strContains`; `toLowerCase` is `String.toLower`.
* Remote calls (the Qdrant vector search, the Qdrant scroll used by the
  keyword fallback, the Jina embedding endpoint) are modelled by explicit
  parameters carrying either the backend's response or its failure
  (`Except Unit _` / `Option _`); a JS `try { ... } catch { return d }`
  becomes a `match` on that parameter.
* Floating point scores are modelled as `ℚ`; `Math.sin` is an abstract
  parameter `sf : Int → ℚ` (a pure function, which is all the claims need).
-/

/-! ## String utilities (JS `includes`, `split(/\s+/)`) -/

/-- `subList needle hay`: is `needle` a contiguous sublist of `hay`?
Executable model of JS `String.prototype.includes` on char lists. -/
def subList (needle : List Char) : List Char → Bool
  | [] => needle.isEmpty
  | c :: rest => needle.isPrefixOf (c :: rest) || subList needle rest

/-- JS `hay.includes(needle)`. -/
def strContains (hay needle : String) : Bool :=
  subList needle.data hay.data

/-- JS `s.toLowerCase()` (character-wise lowercasing; kernel-reducible,
unlike `String.map`). -/
def lowerStr (s : String) : String :=
  ⟨s.data.map Char.toLower⟩

/-- Split a char list at every single whitespace character (consecutive
whitespace yields empty segments); structural, so it kernel-reduces. -/
def splitWsRaw : List Char → List (List Char)
  | [] => [[]]
  | c :: rest =>
    match splitWsRaw rest with
    | t :: ts => if c.isWhitespace then [] :: t :: ts else (c :: t) :: ts
    | [] => [[c]]

/-- Drop every empty segment except a final one (a maximal whitespace run
separates exactly once, but a trailing run still contributes `""`). -/
def dropInteriorEmpties : List (List Char) → List (List Char)
  | [] => []
  | [t] => [t]
  | t :: rest =>
    if t.isEmpty then dropInteriorEmpties rest else t :: dropInteriorEmpties rest

/-- JS `s.split(/\s+/)`: split on maximal whitespace runs; a leading or
trailing whitespace run contributes an empty token, as in JS. -/
def splitWs (s : String) : List String :=
  match splitWsRaw s.data with
  | [] => []
  | t :: ts => (t :: dropInteriorEmpties ts).map List.asString

/-! ## Data model -/

/-- A stored point's payload (Qdrant `payload`).  `url` is `Option` because a
JS object field may be absent (`undefined`). -/
structure Payload where
  title : String
  content : String
  url : Option String
  publishedDate : String
  source : String
  summary : String
deriving DecidableEq, Repr

/-- A point returned by the vector store (search hit or scroll page entry). -/
structure Point where
  id : Nat
  score : ℚ
  payload : Payload
deriving DecidableEq, Repr

/-- The plain result object built by `searchSimilar` / `keywordSearch`
(`{id, score, title, content, url, publishedDate, source, summary}`). -/
structure ResultEntry where
  id : Nat
  score : ℚ
  title : String
  content : String
  url : Option String
  publishedDate : String
  source : String
  summary : String
deriving DecidableEq, Repr

/-- Build the result object from a point, with the given score. -/
def mkEntry (p : Point) (score : ℚ) : ResultEntry :=
  { id := p.id
    score := score
    title := p.payload.title
    content := p.payload.content
    url := p.payload.url
    publishedDate := p.payload.publishedDate
    source := p.payload.source
    summary := p.payload.summary }

/-- One conversation turn (`{role, content}`; the timestamp is never read by
the retrieval core). -/
structure Turn where
  role : String
  content : String
deriving DecidableEq, Repr

/-! ## Denylist and category expansion tables (vectorService.js) -/

/-- The `irrelevantKeywords` array, identical at both occurrences in
`searchSimilar` and `keywordSearch`. -/
def irrelevantKeywords : List String :=
  ["bird", "conservation", "wildlife", "nature", "environment", "climate",
   "animal", "species", "trapper", "predator", "nest", "egg", "feather",
   "wing", "beak", "new zealand", "rare birds", "backyard trappers",
   "invasive predators", "save its rare", "nation of backyard"]

/-- `hasIrrelevantContent` as computed in the source: the three arguments are
the already-lowercased title, summary and content. -/
def hasIrrelevantContent (title summary content : String) : Bool :=
  irrelevantKeywords.any fun keyword =>
    strContains title keyword || strContains summary keyword ||
      strContains content keyword

/-- Does the denylist fire on a result entry's own (lowercased) fields?  For
an entry built by `mkEntry` this is exactly the check both search paths apply
to the underlying payload. -/
def entryDenylisted (e : ResultEntry) : Bool :=
  hasIrrelevantContent (lowerStr e.title) (lowerStr e.summary) (lowerStr e.content)

/-- The `relatedTerms` table of `keywordSearch`, in insertion order. -/
def relatedTerms : List (String × List String) :=
  [("tech",
    ["technology", "nvidia", "tiktok", "ai", "artificial intelligence",
     "software", "digital", "computer", "startup", "innovation",
     "tech companies", "smartphone", "app", "platform", "cyber", "data",
     "cloud", "blockchain", "crypto", "gaming", "mobile", "internet", "web",
     "coding", "programming", "developer", "engineer"]),
   ("indian",
    ["india", "indian", "delhi", "mumbai", "bangalore", "hyderabad",
     "chennai", "pune", "gurgaon", "noida", "indian companies",
     "indian startups", "bharat", "hindustan"]),
   ("economy",
    ["business", "financial", "economic", "fed", "unemployment", "trade",
     "market", "economy", "finance", "investment", "revenue", "profit",
     "stock", "banking"]),
   ("politics",
    ["government", "election", "trump", "biden", "congress", "senate",
     "political", "policy", "administration", "democrat", "republican",
     "vote", "campaign"])]

/-! ## Conversational query rewriter (ragService.js, retrieveRelevantArticles) -/

/-- The fixed reference-word list tested by the follow-up classifier, in the
order of the `||` chain in the source. -/
def followUpWords : List String :=
  ["he", "she", "it", "they", "why", "how", "when", "where", "what", "who"]

/-- `isFollowUp` from `retrieveRelevantArticles`: a raw substring test of each
reference word against the lowercased query. -/
def isFollowUp (query : String) : Bool :=
  followUpWords.any fun w => strContains (lowerStr query) w

/-- The effective-search-query computation at the top of
`retrieveRelevantArticles`: with at least two user turns in the history and a
query classified as a follow-up, the second-to-last user turn's content is
prepended (with a single space); otherwise the query is unchanged. -/
def rewriteQuery (query : String) (conversationHistory : List Turn) : String :=
  if conversationHistory.length > 0 then
    let userMessages := conversationHistory.filter fun m => m.role == "user"
    if userMessages.length > 1 then
      let previousUserMessage := userMessages.getD (userMessages.length - 2) ⟨"", ""⟩
      if isFollowUp query then
        previousUserMessage.content ++ " " ++ query
      else query
    else query
  else query

/-! ## Embedding client (vectorService.js: createEmbedding and its fallback) -/

/-- JS `ToInt32` (the effect of `hash & hash` on a number): wrap into
`[-2^31, 2^31)`. -/
def toInt32 (n : Int) : Int :=
  (n + 2 ^ 31) % 2 ^ 32 - 2 ^ 31

/-- `simpleHash` from the source: fold
`hash = ((hash << 5) - hash) + charCode; hash = hash & hash` over the
characters (code points; identical to UTF-16 units on the BMP), then
`Math.abs`. -/
def simpleHash (s : String) : Nat :=
  (s.data.foldl (fun hash c => toInt32 (toInt32 (hash * 32) - hash + c.toNat)) 0).natAbs

/-- `generateFallbackEmbedding`: a 768-slot zero array filled in place with
`Math.sin(hash + i) * 0.1`.  `sf` abstracts the pure function `Math.sin`
(values in `ℚ`; the claims depend only on it being a function). -/
def generateFallbackEmbedding (sf : Nat → ℚ) (text : String) : List ℚ :=
  let hash := simpleHash text
  (List.range 768).foldl (fun embedding i => embedding.set i (sf (hash + i) * (1 / 10)))
    (List.replicate 768 0)

/-- `createEmbedding`: `remote = some v` models a 2xx response whose body has
`data.data[0].embedding = v`; `remote = none` models a thrown request error or
a malformed payload (the inner `throw` lands in the same `catch`), in which
case the fallback embedding is returned. -/
def createEmbedding (sf : Nat → ℚ) (remote : Option (List ℚ)) (text : String) : List ℚ :=
  match remote with
  | some embedding => embedding
  | none => generateFallbackEmbedding sf text

/-! ## Relevance filter and search paths (vectorService.js) -/

/-- The dedupe-and-denylist loop of `searchSimilar`, carrying `seenUrls`.
A result whose `url` was already seen is skipped; otherwise, if its lowercased
title/summary/content trips the denylist it is skipped **without** recording
its url; otherwise its url is recorded and the result object is pushed. -/
def dedupeFilterAux : List Point → List (Option String) → List ResultEntry
  | [], _ => []
  | result :: rest, seenUrls =>
    if seenUrls.contains result.payload.url then
      dedupeFilterAux rest seenUrls
    else
      if hasIrrelevantContent (lowerStr result.payload.title)
          (lowerStr result.payload.summary) (lowerStr result.payload.content) then
        dedupeFilterAux rest seenUrls
      else
        mkEntry result result.score :: dedupeFilterAux rest (result.payload.url :: seenUrls)

/-- The `uniqueResults` computation of `searchSimilar` (dedupe by url plus
denylist filter), starting from an empty `seenUrls` set. -/
def dedupeFilter (searchResult : List Point) : List ResultEntry :=
  dedupeFilterAux searchResult []

/-- The score accumulation of `keywordSearch` for one article: first the
per-query-word +5/+3/+1 title/summary/content increments, then for each
category whose key occurs as a substring of some query word, +2/+1 per
title/summary hit of each expansion term.  All three text arguments are
already lowercased. -/
def keywordScore (queryWords : List String) (title summary content : String) : Nat :=
  let score := queryWords.foldl (fun score word =>
    let score := if strContains title word then score + 5 else score
    let score := if strContains summary word then score + 3 else score
    if strContains content word then score + 1 else score) 0
  relatedTerms.foldl (fun score kt =>
    if queryWords.any (fun word => strContains word kt.1) then
      kt.2.foldl (fun score term =>
        let score := if strContains title term then score + 2 else score
        if strContains summary term then score + 1 else score) score
    else score) score

/-- `a ≤ b` on `ℚ` by cross-multiplication (denominators are positive).
Equivalent to `≤`, but kernel-reducible on concrete rationals. -/
def ratLe (a b : ℚ) : Bool :=
  a.num * (b.den : Int) ≤ b.num * (a.den : Int)

/-- Stable descending insertion by score: the model of JS
`sort((a, b) => b.score - a.score)` (ECMAScript sorts are stable; ties keep
original order). -/
def insertDesc (x : ResultEntry) : List ResultEntry → List ResultEntry
  | [] => [x]
  | y :: ys => if ratLe y.score x.score then x :: y :: ys else y :: insertDesc x ys

/-- Stable sort, descending by score. -/
def sortDesc (l : List ResultEntry) : List ResultEntry :=
  l.foldr insertDesc []

/-- The body of the per-point loop of `keywordSearch`: score the point and
push `{..., score: score / 10}` onto `scoredArticles` when the score is
positive and the denylist does not fire.  The denylist check lowercases
fields that are already lowercase (a JS no-op, modelled by the single
`lowerStr`). -/
def keywordStep (queryWords : List String) (scoredArticles : List ResultEntry)
    (point : Point) : List ResultEntry :=
  let title := lowerStr point.payload.title
  let content := lowerStr point.payload.content
  let summary := lowerStr point.payload.summary
  let score := keywordScore queryWords title summary content
  if score > 0 && !hasIrrelevantContent title summary content then
    scoredArticles ++ [mkEntry point (Rat.divInt (score : Int) 10)]
  else scoredArticles

/-- `keywordSearch`: `scanResp` models the `client.scroll` call (`.ok points`
is the returned page's `points`; `.error` a thrown request error, absorbed by
the surrounding `catch` which returns `[]`). -/
def keywordSearch (scanResp : Except Unit (List Point)) (query : String)
    (limit : Nat) : List ResultEntry :=
  match scanResp with
  | .error _ => []
  | .ok points =>
    let queryWords := splitWs (lowerStr query)
    let scoredArticles := points.foldl (keywordStep queryWords) []
    (sortDesc scoredArticles).take limit

/-- `searchSimilar`: `clientAvailable` models `this.client` being non-null;
`searchResp` models the `client.search` call (embedding creation never throws,
see `createEmbedding`); a thrown search error is absorbed by the outer `catch`
which returns `[]`.  With fewer than 2 unique results the keyword fallback is
consulted and wins exactly when it strictly outnumbers them. -/
def searchSimilar (clientAvailable : Bool) (searchResp scanResp : Except Unit (List Point))
    (query : String) (limit : Nat) : List ResultEntry :=
  if !clientAvailable then []
  else
    match searchResp with
    | .error _ => []
    | .ok searchResult =>
      let uniqueResults := dedupeFilter searchResult
      if uniqueResults.length < 2 then
        let keywordResults := keywordSearch scanResp query limit
        if keywordResults.length > uniqueResults.length then keywordResults
        else uniqueResults
      else uniqueResults

/-- `retrieveRelevantArticles` (ragService.js): rewrite the query from the
conversation history, then delegate to `searchSimilar`.  Its own
`try`/`catch` returns `[]` on error, but no step of the model can throw. -/
def retrieveRelevantArticles (clientAvailable : Bool)
    (searchResp scanResp : Except Unit (List Point)) (query : String)
    (conversationHistory : List Turn) (limit : Nat) : List ResultEntry :=
  searchSimilar clientAvailable searchResp scanResp
    (rewriteQuery query conversationHistory) limit

/-! ## Spec-side definitions (refinement comparisons)

The following definitions are written from the specification's / claims'
wording, not from the source, and exist only to be compared with the
source-derived definitions above. -/

/-- Written from the claim wording for the dedupe step: the dedupe key is the
`url`, "or the normalized title if URLs are absent". -/
def claimDedupeKey (p : Point) : String :=
  match p.payload.url with
  | some u => u
  | none => lowerStr p.payload.title

/-- Claim-worded dedupe: drop a result whose `claimDedupeKey` was already
seen; first occurrence wins. -/
def claimDedupeAux : List Point → List String → List Point
  | [], _ => []
  | r :: rs, seen =>
    if seen.contains (claimDedupeKey r) then claimDedupeAux rs seen
    else r :: claimDedupeAux rs (claimDedupeKey r :: seen)

def claimDedupe (results : List Point) : List Point :=
  claimDedupeAux results []

/-- Claim wording for the category trigger: "any query token is a substring
of a configured category key". -/
def claimTokenInKey (queryWords : List String) (key : String) : Bool :=
  queryWords.any fun word => strContains key word

/-- Amended category trigger: a configured category key occurs as a substring
of some query token (the direction the source actually tests). -/
def amendedKeyInToken (queryWords : List String) (key : String) : Bool :=
  queryWords.any fun word => strContains word key

/-- The keyword score in the claim's closed form: +5/+3/+1 per query token
found in title/summary/content, and per category whose trigger fires, +2/+1
per expansion term found in title/summary.  The trigger is a parameter so the
claim's direction and the amended direction can be compared. -/
def specKeywordScore (trigger : List String → String → Bool)
    (queryWords : List String) (title summary content : String) : Nat :=
  5 * queryWords.countP (fun w => strContains title w) +
    3 * queryWords.countP (fun w => strContains summary w) +
    queryWords.countP (fun w => strContains content w) +
    (relatedTerms.map fun kt =>
      if trigger queryWords kt.1 then
        2 * kt.2.countP (fun x => strContains title x) +
          kt.2.countP (fun x => strContains summary x)
      else 0).sum

/-- The keyword search in the claim's pipeline form: tokenize the lowercased
query on whitespace, keep the (denylist-clean) articles with positive score,
divide scores by the normalization constant 10, sort descending, truncate to
`limit`. -/
def specKeywordSearch (trigger : List String → String → Bool)
    (points : List Point) (query : String) (limit : Nat) : List ResultEntry :=
  let queryWords := splitWs (lowerStr query)
  let kept := points.filterMap fun p =>
    let score := specKeywordScore trigger queryWords (lowerStr p.payload.title)
      (lowerStr p.payload.summary) (lowerStr p.payload.content)
    if score > 0 && !hasIrrelevantContent (lowerStr p.payload.title)
        (lowerStr p.payload.summary) (lowerStr p.payload.content) then
      some (mkEntry p (Rat.divInt (score : Int) 10))
    else none
  (sortDesc kept).take limit

/-! ## Helper lemmas -/

/-- Filling a prefix of a buffer by `set` at each index of `List.range n`
produces the mapped range followed by the untouched tail. -/
lemma foldl_set_range (f : Nat → ℚ) (n : Nat) :
    ∀ init : List ℚ, n ≤ init.length →
      (List.range n).foldl (fun l i => l.set i (f i)) init =
        (List.range n).map f ++ init.drop n := by
  induction n with
  | zero => intro init _; simp
  | succ n ih =>
    intro init h
    have hn : n < init.length := by omega
    rw [List.range_succ, List.foldl_append, ih init (by omega)]
    simp only [List.foldl_cons, List.foldl_nil]
    rw [List.set_append]
    have hlen : ((List.range n).map f).length = n := by simp
    rw [hlen]
    simp only [lt_irrefl, if_false, Nat.sub_self]
    rw [List.drop_eq_getElem_cons hn, List.set_cons_zero]
    simp [List.range_succ]

/-! ## Theorems: query rewriter (C5, C6, C10) -/

/-- C5: for the history
`[user:"Tell me about X", assistant:"...", user:"why did it happen?"]` and
current query `"why did it happen?"`, the rewriter produces
`"Tell me about X why did it happen?"`. -/
theorem rewrite_followUp_concrete :
    rewriteQuery "why did it happen?"
      [⟨"user", "Tell me about X"⟩, ⟨"assistant", "..."⟩,
       ⟨"user", "why did it happen?"⟩] =
      "Tell me about X why did it happen?" := by
  decide

/-- C6: with fewer than two user-authored turns in the history, the query is
passed through unchanged. -/
theorem rewrite_first_turn_passthrough (query : String) (history : List Turn)
    (h : (history.filter fun m => m.role == "user").length < 2) :
    rewriteQuery query history = query := by
  unfold rewriteQuery
  split
  · have h1 : ¬ (history.filter fun m => m.role == "user").length > 1 := by
      omega
    simp only [h1, if_false]
  · rfl

/-- Witness for C6 at a concrete one-user-turn history. -/
theorem rewrite_first_turn_passthrough_witness :
    rewriteQuery "what is the news?" [⟨"user", "what is the news?"⟩] =
      "what is the news?" :=
  rewrite_first_turn_passthrough "what is the news?"
    [⟨"user", "what is the news?"⟩] (by decide)

/-- C10: follow-up classification is a raw substring test: whenever the
history holds at least two user turns and the lowercased query contains any
reference word as a contiguous substring (even inside a larger word), the
second-to-last user turn's content is prepended to the effective query. -/
theorem rewrite_substring_trigger (query : String) (history : List Turn)
    (h2 : 2 ≤ (history.filter fun m => m.role == "user").length)
    (hw : ∃ w ∈ followUpWords, strContains (lowerStr query) w = true) :
    rewriteQuery query history =
      ((history.filter fun m => m.role == "user").getD
          ((history.filter fun m => m.role == "user").length - 2)
          ⟨"", ""⟩).content ++ " " ++ query := by
  have hfu : isFollowUp query = true := by
    unfold isFollowUp
    rw [List.any_eq_true]
    obtain ⟨w, hwmem, hwc⟩ := hw
    exact ⟨w, hwmem, hwc⟩
  have hlen : 0 < history.length := by
    rcases history with _ | ⟨t, ts⟩
    · simp at h2
    · simp
  unfold rewriteQuery
  have h0 : history.length > 0 := hlen
  have h1 : (history.filter fun m => m.role == "user").length > 1 := by omega
  simp only [h0, if_true, h1, if_true, hfu]

/-- Witness for C10: the query "the weather in paris" contains no standalone
reference word, yet "he" occurs inside "the" (and "weather"), so the previous
topic is prepended. -/
theorem rewrite_substring_trigger_witness :
    rewriteQuery "the weather in paris"
      [⟨"user", "Tell me about nvidia"⟩, ⟨"assistant", "sure"⟩,
       ⟨"user", "the weather in paris"⟩] =
      "Tell me about nvidia the weather in paris" := by
  have h := rewrite_substring_trigger "the weather in paris"
    [⟨"user", "Tell me about nvidia"⟩, ⟨"assistant", "sure"⟩,
     ⟨"user", "the weather in paris"⟩]
    (by decide) ⟨"he", by decide, by decide⟩
  simpa using h

/-! ## Theorems: embedding fallback (C4) -/

/-- C4: when the remote embedding call fails, `createEmbedding` returns (no
propagated failure) the fallback vector: exactly 768 entries, entry `i` equal
to `sf (simpleHash text + i) * 0.1` — a pure function of the input text, so
two fallback calls with identical text return identical vectors. -/
theorem createEmbedding_failure_fallback (sf : Nat → ℚ) (text : String) :
    createEmbedding sf none text = generateFallbackEmbedding sf text ∧
    (generateFallbackEmbedding sf text).length = 768 ∧
    generateFallbackEmbedding sf text =
      (List.range 768).map (fun i => sf (simpleHash text + i) * (1 / 10)) := by
  have hchar : generateFallbackEmbedding sf text =
      (List.range 768).map (fun i => sf (simpleHash text + i) * (1 / 10)) := by
    show (List.range 768).foldl
        (fun embedding i => embedding.set i (sf (simpleHash text + i) * (1 / 10)))
        (List.replicate 768 0) = _
    rw [foldl_set_range (fun i => sf (simpleHash text + i) * (1 / 10)) 768
        (List.replicate 768 (0 : ℚ)) (le_of_eq (List.length_replicate 768 0).symm)]
    rw [List.drop_eq_nil_of_le (le_of_eq (List.length_replicate 768 (0 : ℚ)))]
    exact List.append_nil _
  refine ⟨rfl, ?_, hchar⟩
  rw [hchar, List.length_map, List.length_range]

/-! ## Helper lemmas: sorting, search-path reductions -/

lemma insertDesc_perm (x : ResultEntry) (l : List ResultEntry) :
    List.Perm (insertDesc x l) (x :: l) := by
  induction l with
  | nil => simp [insertDesc]
  | cons y ys ih =>
    unfold insertDesc
    split
    · exact List.Perm.refl _
    · exact List.Perm.trans (List.Perm.cons y ih) (List.Perm.swap x y ys)

lemma sortDesc_perm (l : List ResultEntry) : List.Perm (sortDesc l) l := by
  induction l with
  | nil => simp [sortDesc]
  | cons a l ih =>
    have h : sortDesc (a :: l) = insertDesc a (sortDesc l) := rfl
    rw [h]
    exact List.Perm.trans (insertDesc_perm a (sortDesc l)) (List.Perm.cons a ih)

/-- `searchSimilar` on an available client and a successful vector search,
with the `let`s of the source unfolded. -/
lemma searchSimilar_ok (searchResult : List Point)
    (scanResp : Except Unit (List Point)) (query : String) (limit : Nat) :
    searchSimilar true (.ok searchResult) scanResp query limit =
      if (dedupeFilter searchResult).length < 2 then
        (if (keywordSearch scanResp query limit).length > (dedupeFilter searchResult).length
          then keywordSearch scanResp query limit
          else dedupeFilter searchResult)
      else dedupeFilter searchResult := rfl

/-- `keywordStep` with its `let`s unfolded. -/
lemma keywordStep_eq (qws : List String) (acc : List ResultEntry) (p : Point) :
    keywordStep qws acc p =
      if keywordScore qws (lowerStr p.payload.title) (lowerStr p.payload.summary)
            (lowerStr p.payload.content) > 0 &&
          !hasIrrelevantContent (lowerStr p.payload.title) (lowerStr p.payload.summary)
            (lowerStr p.payload.content) then
        acc ++ [mkEntry p (Rat.divInt ((keywordScore qws (lowerStr p.payload.title)
          (lowerStr p.payload.summary) (lowerStr p.payload.content) : Nat) : Int) 10)]
      else acc := rfl

/-! ## Helper lemmas: the denylist filter never lets a denylisted entry out -/

lemma dedupeFilterAux_clean :
    ∀ (l : List Point) (seen : List (Option String)),
      ∀ e ∈ dedupeFilterAux l seen, entryDenylisted e = false := by
  intro l
  induction l with
  | nil => intro seen e he; simp [dedupeFilterAux] at he
  | cons r rs ih =>
    intro seen e he
    unfold dedupeFilterAux at he
    split at he
    · exact ih seen e he
    · split at he
      · exact ih seen e he
      · rename_i hirr
        simp only [Bool.not_eq_true] at hirr
        rcases List.mem_cons.mp he with rfl | he'
        · simpa [entryDenylisted, mkEntry] using hirr
        · exact ih _ e he'

lemma foldl_keywordStep_clean (qws : List String) :
    ∀ (points : List Point) (acc : List ResultEntry),
      (∀ e ∈ acc, entryDenylisted e = false) →
      ∀ e ∈ points.foldl (keywordStep qws) acc, entryDenylisted e = false := by
  intro points
  induction points with
  | nil =>
    intro acc hacc e he
    rw [List.foldl_nil] at he
    exact hacc e he
  | cons p ps ih =>
    intro acc hacc e he
    rw [List.foldl_cons] at he
    refine ih (keywordStep qws acc p) ?_ e he
    intro e' he'
    rw [keywordStep_eq] at he'
    split at he'
    · rename_i hcond
      rcases List.mem_append.mp he' with h | h
      · exact hacc e' h
      · have hirr : hasIrrelevantContent (lowerStr p.payload.title)
            (lowerStr p.payload.summary) (lowerStr p.payload.content) = false := by
          rcases Bool.and_eq_true_iff.mp hcond with ⟨-, h2⟩
          simpa using h2
        have he'' : e' = mkEntry p (Rat.divInt ((keywordScore qws (lowerStr p.payload.title)
            (lowerStr p.payload.summary) (lowerStr p.payload.content) : Nat) : Int) 10) := by
          simpa using h
        rw [he'']
        simpa [entryDenylisted, mkEntry] using hirr
    · exact hacc e' he'

lemma keywordSearch_clean (scanResp : Except Unit (List Point)) (query : String)
    (limit : Nat) : ∀ e ∈ keywordSearch scanResp query limit, entryDenylisted e = false := by
  intro e he
  cases scanResp with
  | error u => simp [keywordSearch] at he
  | ok points =>
    have hred : keywordSearch (.ok points) query limit =
        (sortDesc (points.foldl (keywordStep (splitWs (lowerStr query))) [])).take limit := rfl
    rw [hred] at he
    have h1 : e ∈ sortDesc (points.foldl (keywordStep (splitWs (lowerStr query))) []) :=
      List.take_subset _ _ he
    have h2 : e ∈ points.foldl (keywordStep (splitWs (lowerStr query))) [] :=
      (sortDesc_perm _).mem_iff.mp h1
    exact foldl_keywordStep_clean _ points [] (by simp) e h2

/-! ## Theorems: denylist exclusion (C2) -/

/-- C2: a stored article whose (lowercased) title, summary or content
contains a denylist term appears in no search result: every entry either
search path returns is denylist-clean, on the vector path and on the
keyword-fallback path alike. -/
theorem denylisted_never_in_results (clientAvailable : Bool)
    (searchResp scanResp : Except Unit (List Point)) (query : String)
    (limit : Nat) (e : ResultEntry) :
    (e ∈ searchSimilar clientAvailable searchResp scanResp query limit →
      entryDenylisted e = false) ∧
    (e ∈ keywordSearch scanResp query limit → entryDenylisted e = false) := by
  constructor
  · intro he
    cases clientAvailable with
    | false => simp [searchSimilar] at he
    | true =>
      cases searchResp with
      | error u => simp [searchSimilar] at he
      | ok searchResult =>
        rw [searchSimilar_ok] at he
        split at he
        · split at he
          · exact keywordSearch_clean _ _ _ e he
          · exact dedupeFilterAux_clean _ _ e he
        · exact dedupeFilterAux_clean _ _ e he
  · intro he
    exact keywordSearch_clean _ _ _ e he

/-- Witness for C2 at a concrete store: the clean article "fed a" does appear
in the output, and the theorem yields that its denylist check is false. -/
theorem denylisted_never_in_results_witness :
    entryDenylisted (mkEntry ⟨1, 1, ⟨"fed a", "x", some "u1", "d", "s", "y"⟩⟩ 1) = false :=
  (denylisted_never_in_results true
      (.ok [⟨1, 1, ⟨"fed a", "x", some "u1", "d", "s", "y"⟩⟩,
            ⟨2, 1, ⟨"fed b", "x", some "u2", "d", "s", "y"⟩⟩])
      (.ok []) "fed" 5
      (mkEntry ⟨1, 1, ⟨"fed a", "x", some "u1", "d", "s", "y"⟩⟩ 1)).1 (by decide)

/-! ## Theorems: degraded mode (C3) -/

/-- C3: when the store client is null or the vector-search call throws,
`searchSimilar` returns `[]` (the model is a total function, so no error can
propagate), and `retrieveRelevantArticles` then also returns `[]`. -/
theorem searchSimilar_unavailable_empty (clientAvailable : Bool)
    (searchResp scanResp : Except Unit (List Point)) (query : String)
    (history : List Turn) (limit : Nat)
    (h : clientAvailable = false ∨ searchResp = .error ()) :
    searchSimilar clientAvailable searchResp scanResp query limit = [] ∧
    retrieveRelevantArticles clientAvailable searchResp scanResp query history limit = [] := by
  have hs : ∀ q, searchSimilar clientAvailable searchResp scanResp q limit = [] := by
    intro q
    rcases h with rfl | rfl
    · rfl
    · cases clientAvailable <;> rfl
  exact ⟨hs query, hs (rewriteQuery query history)⟩

/-- Witness for C3 with an unavailable client. -/
theorem searchSimilar_unavailable_empty_witness :
    searchSimilar false (.ok []) (.ok []) "latest news" 5 = [] ∧
    retrieveRelevantArticles false (.ok []) (.ok []) "latest news" [] 5 = [] :=
  searchSimilar_unavailable_empty false (.ok []) (.ok []) "latest news" [] 5 (Or.inl rfl)

/-! ## Theorems: sparse-result escalation (C7) -/

/-- C7: when the deduplicated, denylist-filtered vector result set has fewer
than 2 entries, `searchSimilar` runs the keyword search and returns its
results exactly when they strictly outnumber the vector-derived set,
otherwise the vector-derived set. -/
theorem searchSimilar_sparse_escalation (searchResult : List Point)
    (scanResp : Except Unit (List Point)) (query : String) (limit : Nat)
    (h : (dedupeFilter searchResult).length < 2) :
    searchSimilar true (.ok searchResult) scanResp query limit =
      if (keywordSearch scanResp query limit).length > (dedupeFilter searchResult).length
      then keywordSearch scanResp query limit
      else dedupeFilter searchResult := by
  rw [searchSimilar_ok, if_pos h]

/-- Witness for C7: 1 surviving vector result against 3 qualifying keyword
results — the 3 keyword results are returned. -/
theorem searchSimilar_sparse_escalation_witness :
    (dedupeFilter [⟨9, Rat.divInt 1 2, ⟨"alpha", "x", some "u0", "d", "s", "y"⟩⟩]).length = 1 ∧
    (keywordSearch (.ok [⟨1, 0, ⟨"fed a", "x", some "u1", "d", "s", "y"⟩⟩,
        ⟨2, 0, ⟨"fed b", "x", some "u2", "d", "s", "y"⟩⟩,
        ⟨3, 0, ⟨"fed c", "x", some "u3", "d", "s", "y"⟩⟩]) "fed" 5).length = 3 ∧
    searchSimilar true (.ok [⟨9, Rat.divInt 1 2, ⟨"alpha", "x", some "u0", "d", "s", "y"⟩⟩])
        (.ok [⟨1, 0, ⟨"fed a", "x", some "u1", "d", "s", "y"⟩⟩,
        ⟨2, 0, ⟨"fed b", "x", some "u2", "d", "s", "y"⟩⟩,
        ⟨3, 0, ⟨"fed c", "x", some "u3", "d", "s", "y"⟩⟩]) "fed" 5 =
      keywordSearch (.ok [⟨1, 0, ⟨"fed a", "x", some "u1", "d", "s", "y"⟩⟩,
        ⟨2, 0, ⟨"fed b", "x", some "u2", "d", "s", "y"⟩⟩,
        ⟨3, 0, ⟨"fed c", "x", some "u3", "d", "s", "y"⟩⟩]) "fed" 5 := by
  refine ⟨by decide, by decide, ?_⟩
  rw [searchSimilar_sparse_escalation _ _ _ _ (by decide), if_pos (by decide)]

/-! ## Helper lemmas: lengths and url uniqueness of the two search paths -/

lemma dedupeFilterAux_length_le :
    ∀ (l : List Point) (seen : List (Option String)),
      (dedupeFilterAux l seen).length ≤ l.length := by
  intro l
  induction l with
  | nil => intro seen; simp [dedupeFilterAux]
  | cons r rs ih =>
    intro seen
    unfold dedupeFilterAux
    split
    · exact Nat.le_succ_of_le (ih seen)
    · split
      · exact Nat.le_succ_of_le (ih seen)
      · simpa using ih (r.payload.url :: seen)

lemma dedupeFilterAux_urls :
    ∀ (l : List Point) (seen : List (Option String)),
      (∀ e ∈ dedupeFilterAux l seen, e.url ∉ seen) ∧
      ((dedupeFilterAux l seen).map (fun e => e.url)).Pairwise (· ≠ ·) := by
  intro l
  induction l with
  | nil => intro seen; simp [dedupeFilterAux]
  | cons r rs ih =>
    intro seen
    unfold dedupeFilterAux
    split
    · exact ih seen
    · rename_i hseen
      split
      · exact ih seen
      · constructor
        · intro e he
          rcases List.mem_cons.mp he with rfl | he'
          · show r.payload.url ∉ seen
            simpa using hseen
          · have h1 := (ih (r.payload.url :: seen)).1 e he'
            intro hmem
            exact h1 (List.mem_cons_of_mem _ hmem)
        · rw [List.map_cons]
          refine List.pairwise_cons.mpr ⟨?_, (ih (r.payload.url :: seen)).2⟩
          intro u hu
          rcases List.mem_map.mp hu with ⟨e, he, rfl⟩
          have h1 := (ih (r.payload.url :: seen)).1 e he
          intro heq
          apply h1
          rw [← heq]
          exact List.mem_cons_self _ _

lemma foldl_keywordStep_urls (qws : List String) :
    ∀ (points : List Point) (acc : List ResultEntry),
      ((acc.map fun e => e.url) ++ points.map fun p => p.payload.url).Pairwise (· ≠ ·) →
      ((points.foldl (keywordStep qws) acc).map fun e => e.url).Pairwise (· ≠ ·) := by
  intro points
  induction points with
  | nil =>
    intro acc hacc
    rw [List.foldl_nil]
    simpa using hacc
  | cons p ps ih =>
    intro acc hacc
    rw [List.foldl_cons]
    refine ih (keywordStep qws acc p) ?_
    rw [keywordStep_eq]
    split
    · have hmaps : ((acc ++ [mkEntry p (Rat.divInt ((keywordScore qws (lowerStr p.payload.title)
          (lowerStr p.payload.summary) (lowerStr p.payload.content) : Nat) : Int) 10)]).map
            fun e => e.url) ++ ps.map (fun pt => pt.payload.url) =
          ((acc.map fun e => e.url) ++ (p :: ps).map fun pt => pt.payload.url) := by
        simp [mkEntry]
      rw [hmaps]
      exact hacc
    · refine List.Pairwise.sublist ?_ hacc
      refine List.Sublist.append_left ?_ _
      exact List.sublist_cons_self _ _

lemma keywordSearch_length_le (scanResp : Except Unit (List Point)) (query : String)
    (limit : Nat) : (keywordSearch scanResp query limit).length ≤ limit := by
  cases scanResp with
  | error u => simp [keywordSearch]
  | ok points =>
    have hred : keywordSearch (.ok points) query limit =
        (sortDesc (points.foldl (keywordStep (splitWs (lowerStr query))) [])).take limit := rfl
    rw [hred, List.length_take]
    exact Nat.min_le_left _ _

lemma keywordSearch_urls (points : List Point) (query : String) (limit : Nat)
    (hscan : (points.map fun p => p.payload.url).Pairwise (· ≠ ·)) :
    ((keywordSearch (.ok points) query limit).map fun e => e.url).Pairwise (· ≠ ·) := by
  have hred : keywordSearch (.ok points) query limit =
      (sortDesc (points.foldl (keywordStep (splitWs (lowerStr query))) [])).take limit := rfl
  rw [hred]
  have hscored : ((points.foldl (keywordStep (splitWs (lowerStr query))) []).map
      fun e => e.url).Pairwise (· ≠ ·) := by
    refine foldl_keywordStep_urls _ points [] ?_
    simpa using hscan
  have hsorted : ((sortDesc (points.foldl (keywordStep (splitWs (lowerStr query))) [])).map
      fun e => e.url).Pairwise (· ≠ ·) := by
    have hperm := (sortDesc_perm (points.foldl (keywordStep (splitWs (lowerStr query))) [])).map
      fun e => e.url
    exact (List.Perm.pairwise_iff (fun h => Ne.symm h) hperm).mpr hscored
  exact List.Pairwise.sublist (List.Sublist.map _ (List.take_sublist _ _)) hsorted

/-- The three possible shapes of a `searchSimilar` result. -/
lemma searchSimilar_cases (clientAvailable : Bool)
    (searchResp scanResp : Except Unit (List Point)) (query : String) (limit : Nat) :
    searchSimilar clientAvailable searchResp scanResp query limit = [] ∨
    (∃ sr, searchResp = .ok sr ∧
      searchSimilar clientAvailable searchResp scanResp query limit = dedupeFilter sr) ∨
    searchSimilar clientAvailable searchResp scanResp query limit =
      keywordSearch scanResp query limit := by
  cases clientAvailable with
  | false => exact Or.inl rfl
  | true =>
    cases searchResp with
    | error u => exact Or.inl rfl
    | ok sr =>
      rw [searchSimilar_ok]
      split
      · split
        · exact Or.inr (Or.inr rfl)
        · exact Or.inr (Or.inl ⟨sr, rfl, rfl⟩)
      · exact Or.inr (Or.inl ⟨sr, rfl, rfl⟩)

/-! ## Theorems: size bound and url uniqueness (C1) -/

/-- C1: under the vector backend's contract (a search returns at most `limit`
hits) and the store invariant (stored urls are pairwise distinct), the
retrieval operation — `retrieveRelevantArticles` composed with
`searchSimilar`, keyword fallback included — returns at most `limit` entries,
no two of which share the same `url`. -/
theorem retrieve_limit_and_unique_urls (clientAvailable : Bool)
    (searchResp scanResp : Except Unit (List Point)) (query : String)
    (history : List Turn) (limit : Nat)
    (hsearch : ∀ l, searchResp = .ok l → l.length ≤ limit)
    (hscan : ∀ l, scanResp = .ok l → (l.map fun p => p.payload.url).Pairwise (· ≠ ·)) :
    (retrieveRelevantArticles clientAvailable searchResp scanResp query history limit).length
        ≤ limit ∧
    ((retrieveRelevantArticles clientAvailable searchResp scanResp query history limit).map
        fun e => e.url).Pairwise (· ≠ ·) := by
  have hret : retrieveRelevantArticles clientAvailable searchResp scanResp query history limit =
      searchSimilar clientAvailable searchResp scanResp (rewriteQuery query history) limit := rfl
  rw [hret]
  rcases searchSimilar_cases clientAvailable searchResp scanResp
      (rewriteQuery query history) limit with h | ⟨sr, hsr, h⟩ | h
  · rw [h]
    exact ⟨Nat.zero_le _, List.Pairwise.nil⟩
  · rw [h]
    constructor
    · exact le_trans (dedupeFilterAux_length_le sr []) (hsearch sr hsr)
    · exact (dedupeFilterAux_urls sr []).2
  · rw [h]
    constructor
    · exact keywordSearch_length_le scanResp (rewriteQuery query history) limit
    · cases scanResp with
      | error u => simp [keywordSearch]
      | ok points => exact keywordSearch_urls points _ limit (hscan points rfl)

/-- Witness for C1 at a concrete two-article store. -/
theorem retrieve_limit_and_unique_urls_witness :
    (retrieveRelevantArticles true
        (.ok [⟨1, 1, ⟨"fed a", "x", some "u1", "d", "s", "y"⟩⟩,
              ⟨2, 1, ⟨"fed b", "x", some "u2", "d", "s", "y"⟩⟩])
        (.ok []) "markets" [] 5).length ≤ 5 ∧
    ((retrieveRelevantArticles true
        (.ok [⟨1, 1, ⟨"fed a", "x", some "u1", "d", "s", "y"⟩⟩,
              ⟨2, 1, ⟨"fed b", "x", some "u2", "d", "s", "y"⟩⟩])
        (.ok []) "markets" [] 5).map fun e => e.url).Pairwise (· ≠ ·) :=
  retrieve_limit_and_unique_urls true
    (.ok [⟨1, 1, ⟨"fed a", "x", some "u1", "d", "s", "y"⟩⟩,
          ⟨2, 1, ⟨"fed b", "x", some "u2", "d", "s", "y"⟩⟩])
    (.ok []) "markets" [] 5
    (fun l hl => by injection hl with h; subst h; decide)
    (fun l hl => by injection hl with h; subst h; decide)

/-! ## Helper lemmas: closed form of the keyword score -/

/-- The per-token +5/+3/+1 accumulation equals its closed form. -/
lemma base_foldl_eq (t s c : String) :
    ∀ (qws : List String) (a : Nat),
      qws.foldl (fun score word =>
        let score := if strContains t word then score + 5 else score
        let score := if strContains s word then score + 3 else score
        if strContains c word then score + 1 else score) a =
      a + 5 * qws.countP (fun w => strContains t w) +
        3 * qws.countP (fun w => strContains s w) +
        qws.countP (fun w => strContains c w) := by
  intro qws
  induction qws with
  | nil => intro a; simp
  | cons w ws ih =>
    intro a
    rw [List.foldl_cons]
    simp only []
    rw [ih]
    simp only [List.countP_cons]
    by_cases h1 : strContains t w = true <;>
      by_cases h2 : strContains s w = true <;>
        by_cases h3 : strContains c w = true <;>
          simp [h1, h2, h3] <;> ring

/-- The per-expansion-term +2/+1 accumulation equals its closed form. -/
lemma inner_foldl_eq (t s : String) :
    ∀ (terms : List String) (a : Nat),
      terms.foldl (fun score term =>
        let score := if strContains t term then score + 2 else score
        if strContains s term then score + 1 else score) a =
      a + 2 * terms.countP (fun x => strContains t x) +
        terms.countP (fun x => strContains s x) := by
  intro terms
  induction terms with
  | nil => intro a; simp
  | cons w ws ih =>
    intro a
    rw [List.foldl_cons]
    simp only []
    rw [ih]
    simp only [List.countP_cons]
    by_cases h1 : strContains t w = true <;>
      by_cases h2 : strContains s w = true <;>
        simp [h1, h2] <;> ring

/-- The category-expansion accumulation equals a sum over categories. -/
lemma outer_foldl_eq (qws : List String) (t s : String) :
    ∀ (cats : List (String × List String)) (a : Nat),
      cats.foldl (fun score kt =>
        if qws.any (fun word => strContains word kt.1) then
          kt.2.foldl (fun score term =>
            let score := if strContains t term then score + 2 else score
            if strContains s term then score + 1 else score) score
        else score) a =
      a + (cats.map fun kt =>
        if qws.any (fun word => strContains word kt.1) then
          2 * kt.2.countP (fun x => strContains t x) +
            kt.2.countP (fun x => strContains s x)
        else 0).sum := by
  intro cats
  induction cats with
  | nil => intro a; simp
  | cons kt cats ih =>
    intro a
    rw [List.foldl_cons, List.map_cons, List.sum_cons]
    by_cases h : (qws.any fun word => strContains word kt.1) = true
    · rw [if_pos h, if_pos h, inner_foldl_eq, ih]
      ring
    · rw [if_neg h, if_neg h, ih]
      ring

/-- The incremental score of the source equals the claim-shaped closed form
with the amended trigger direction. -/
lemma keywordScore_eq_spec (qws : List String) (t s c : String) :
    keywordScore qws t s c = specKeywordScore amendedKeyInToken qws t s c := by
  have h : keywordScore qws t s c =
      relatedTerms.foldl (fun score kt =>
        if qws.any (fun word => strContains word kt.1) then
          kt.2.foldl (fun score term =>
            let score := if strContains t term then score + 2 else score
            if strContains s term then score + 1 else score) score
        else score)
        (qws.foldl (fun score word =>
          let score := if strContains t word then score + 5 else score
          let score := if strContains s word then score + 3 else score
          if strContains c word then score + 1 else score) 0) := rfl
  rw [h, base_foldl_eq, outer_foldl_eq]
  simp only [specKeywordScore, amendedKeyInToken]
  ring

/-- The push-accumulation of `keywordSearch` equals a `filterMap`. -/
lemma foldl_keywordStep_filterMap (qws : List String) :
    ∀ (points : List Point) (acc : List ResultEntry),
      points.foldl (keywordStep qws) acc = acc ++ points.filterMap (fun p =>
        if keywordScore qws (lowerStr p.payload.title) (lowerStr p.payload.summary)
              (lowerStr p.payload.content) > 0 &&
            !hasIrrelevantContent (lowerStr p.payload.title) (lowerStr p.payload.summary)
              (lowerStr p.payload.content) then
          some (mkEntry p (Rat.divInt ((keywordScore qws (lowerStr p.payload.title)
            (lowerStr p.payload.summary) (lowerStr p.payload.content) : Nat) : Int) 10))
        else none) := by
  intro points
  induction points with
  | nil => intro acc; simp
  | cons p ps ih =>
    intro acc
    rw [List.foldl_cons, List.filterMap_cons, keywordStep_eq, ih]
    by_cases h : (keywordScore qws (lowerStr p.payload.title) (lowerStr p.payload.summary)
          (lowerStr p.payload.content) > 0 &&
        !hasIrrelevantContent (lowerStr p.payload.title) (lowerStr p.payload.summary)
          (lowerStr p.payload.content)) = true
    · rw [if_pos h, if_pos h]
      simp
    · rw [if_neg h, if_neg h]

/-! ## Theorems: keyword-search algorithm (C8, corrected) -/

/-- Counterexample to C8 as stated: for the one-article store
`[title "nvidia chips"]` and the query `"tec"`, the claimed trigger — "any
query token is a substring of a configured category key" — fires ("tec" is a
substring of "tech") and yields one result, while the source code's trigger
(`word.includes(key)`: the key must be a substring of the token) does not
fire, so `keywordSearch` returns nothing. -/
theorem keywordSearch_trigger_direction_counterexample :
    keywordSearch (.ok [⟨1, 0, ⟨"nvidia chips", "x", some "u4", "d", "s", "y"⟩⟩]) "tec" 5
        = [] ∧
    specKeywordSearch claimTokenInKey
        [⟨1, 0, ⟨"nvidia chips", "x", some "u4", "d", "s", "y"⟩⟩] "tec" 5 =
      [mkEntry ⟨1, 0, ⟨"nvidia chips", "x", some "u4", "d", "s", "y"⟩⟩ (Rat.divInt 2 10)] := by
  constructor
  · decide
  · decide

/-- C8 amended: `keywordSearch` equals the claim's pipeline — tokenize the
lowercased query on whitespace; score +5/+3/+1 per token found in
title/summary/content plus +2/+1 per expansion term of each category whose
key occurs as a substring of some query token; keep denylist-clean articles
with score > 0; divide by 10; stable-sort descending; truncate to `limit`. -/
theorem keywordSearch_spec_amended (points : List Point) (query : String) (limit : Nat) :
    keywordSearch (.ok points) query limit =
      specKeywordSearch amendedKeyInToken points query limit := by
  have hred : keywordSearch (.ok points) query limit =
      (sortDesc (points.foldl (keywordStep (splitWs (lowerStr query))) [])).take limit := rfl
  rw [hred, foldl_keywordStep_filterMap, List.nil_append]
  show (sortDesc (points.filterMap _)).take limit = (sortDesc (points.filterMap _)).take limit
  simp only [keywordScore_eq_spec]

/-! ## Helper lemmas: structure of the dedupe output -/

/-- The dedupe output is a subsequence of the input's entries. -/
lemma dedupeFilterAux_sublist :
    ∀ (l : List Point) (seen : List (Option String)),
      List.Sublist (dedupeFilterAux l seen) (l.map fun r => mkEntry r r.score) := by
  intro l
  induction l with
  | nil => intro seen; simp [dedupeFilterAux]
  | cons r rs ih =>
    intro seen
    unfold dedupeFilterAux
    rw [List.map_cons]
    split
    · exact List.Sublist.cons _ (ih seen)
    · split
      · exact List.Sublist.cons _ (ih seen)
      · exact List.Sublist.cons₂ _ (ih (r.payload.url :: seen))

/-- Every denylist-clean input article whose url key is not already seen has
its url key represented in the dedupe output. -/
lemma dedupeFilterAux_represented :
    ∀ (l : List Point) (seen : List (Option String)) (p : Point), p ∈ l →
      hasIrrelevantContent (lowerStr p.payload.title) (lowerStr p.payload.summary)
          (lowerStr p.payload.content) = false →
      p.payload.url ∉ seen →
      ∃ e ∈ dedupeFilterAux l seen, e.url = p.payload.url := by
  intro l
  induction l with
  | nil => intro seen p hp; simp at hp
  | cons r rs ih =>
    intro seen p hp hclean hseen
    unfold dedupeFilterAux
    rcases List.mem_cons.mp hp with rfl | hp'
    · have hc : ¬ (seen.contains p.payload.url = true) := by
        simpa using hseen
      rw [if_neg hc, if_neg (by simp [hclean])]
      exact ⟨mkEntry p p.score, List.mem_cons_self _ _, rfl⟩
    · split
      · exact ih seen p hp' hclean hseen
      · split
        · exact ih seen p hp' hclean hseen
        · by_cases hsame : p.payload.url = r.payload.url
          · refine ⟨mkEntry r r.score, List.mem_cons_self _ _, ?_⟩
            exact hsame.symm
          · have h1 := ih (r.payload.url :: seen) p hp' hclean
              (by
                intro hmem
                rcases List.mem_cons.mp hmem with h | h
                · exact hsame h
                · exact hseen h)
            obtain ⟨e, he, heq⟩ := h1
            exact ⟨e, List.mem_cons_of_mem _ he, heq⟩

/-! ## Theorems: dedupe key (C9, corrected) -/

/-- Counterexample to C9 as stated: two denylist-clean results with **no**
`url` and different titles.  Under the claimed title-fallback both survive
(`claimDedupe` keeps 2), but the source keys the dedupe set on the raw `url`
value alone — both share the key `undefined` — so only the first survives. -/
theorem dedupe_title_fallback_counterexample :
    dedupeFilter
        [⟨1, 1, ⟨"Fed raises rates", "x", none, "d", "s", "y"⟩⟩,
         ⟨2, 1, ⟨"Nvidia earnings", "x", none, "d", "s", "y"⟩⟩] =
      [mkEntry ⟨1, 1, ⟨"Fed raises rates", "x", none, "d", "s", "y"⟩⟩ 1] ∧
    (claimDedupe
        [⟨1, 1, ⟨"Fed raises rates", "x", none, "d", "s", "y"⟩⟩,
         ⟨2, 1, ⟨"Nvidia earnings", "x", none, "d", "s", "y"⟩⟩]).length = 2 := by
  constructor
  · decide
  · decide

/-- A denylist-clean result preceded only by denylisted results among those
sharing its url key survives the dedupe loop — regardless of the urls already
seen from an enclosing context, as long as its own url is not among them.
(Denylisted occurrences never record their url, so they cannot shadow a later
clean duplicate.) -/
lemma dedupeFilterAux_first_clean_wins :
    ∀ (l₁ : List Point) (p : Point) (l₂ : List Point) (seen : List (Option String)),
      hasIrrelevantContent (lowerStr p.payload.title) (lowerStr p.payload.summary)
          (lowerStr p.payload.content) = false →
      p.payload.url ∉ seen →
      (∀ q ∈ l₁, q.payload.url = p.payload.url →
        hasIrrelevantContent (lowerStr q.payload.title) (lowerStr q.payload.summary)
            (lowerStr q.payload.content) = true) →
      mkEntry p p.score ∈ dedupeFilterAux (l₁ ++ p :: l₂) seen := by
  intro l₁
  induction l₁ with
  | nil =>
    intro p l₂ seen hclean hseen _
    rw [List.nil_append]
    unfold dedupeFilterAux
    rw [if_neg (by simpa using hseen), if_neg (by simp [hclean])]
    exact List.mem_cons_self _ _
  | cons r l₁ ih =>
    intro p l₂ seen hclean hseen hfirst
    rw [List.cons_append]
    unfold dedupeFilterAux
    split
    · exact ih p l₂ seen hclean hseen
        (fun q hq hu => hfirst q (List.mem_cons_of_mem _ hq) hu)
    · split
      · exact ih p l₂ seen hclean hseen
          (fun q hq hu => hfirst q (List.mem_cons_of_mem _ hq) hu)
      · rename_i hrclean
        refine List.mem_cons_of_mem _
          (ih p l₂ (r.payload.url :: seen) hclean ?_
            (fun q hq hu => hfirst q (List.mem_cons_of_mem _ hq) hu))
        intro hmem
        rcases List.mem_cons.mp hmem with h | h
        · exact hrclean (hfirst r (List.mem_cons_self _ _) h.symm)
        · exact hseen h

/-- C9 amended: the dedupe step keys on the raw `url` field value only (all
absent urls collide on one key, and there is no title fallback), with the
first denylist-clean occurrence winning: output url keys are pairwise
distinct; the output is a subsequence of the input's entries; every
denylist-clean input article has its url key represented; and whenever a
clean result `p` is preceded only by denylisted results among those sharing
its url key, `p`'s own entry is the one in the output — so later duplicates
are discarded even if their metadata differs, and a last-wins dedupe is ruled
out. -/
theorem dedupe_by_url_only (results : List Point) :
    ((dedupeFilter results).map fun e => e.url).Pairwise (· ≠ ·) ∧
    List.Sublist (dedupeFilter results) (results.map fun r => mkEntry r r.score) ∧
    (∀ p ∈ results,
      hasIrrelevantContent (lowerStr p.payload.title) (lowerStr p.payload.summary)
          (lowerStr p.payload.content) = false →
      ∃ e ∈ dedupeFilter results, e.url = p.payload.url) ∧
    ∀ (l₁ : List Point) (p : Point) (l₂ : List Point),
      results = l₁ ++ p :: l₂ →
      hasIrrelevantContent (lowerStr p.payload.title) (lowerStr p.payload.summary)
          (lowerStr p.payload.content) = false →
      (∀ q ∈ l₁, q.payload.url = p.payload.url →
        hasIrrelevantContent (lowerStr q.payload.title) (lowerStr q.payload.summary)
            (lowerStr q.payload.content) = true) →
      mkEntry p p.score ∈ dedupeFilter results := by
  refine ⟨(dedupeFilterAux_urls results []).2, ?_, ?_, ?_⟩
  · exact dedupeFilterAux_sublist results []
  · intro p hp hclean
    exact dedupeFilterAux_represented results [] p hp hclean (by simp)
  · intro l₁ p l₂ hsplit hclean hfirst
    rw [hsplit]
    exact dedupeFilterAux_first_clean_wins l₁ p l₂ [] hclean (by simp) hfirst

/-- Witness for the amended C9: three results share the url `u`; the first is
denylisted, so the *second* — the first denylist-clean occurrence — is the
entry the dedupe emits, and by url-distinctness the third is discarded. -/
theorem dedupe_by_url_only_witness :
    mkEntry ⟨2, 1, ⟨"Fed raises rates", "x", some "u", "d", "s", "y"⟩⟩ 1 ∈
      dedupeFilter
        [⟨1, 1, ⟨"rare birds spotted", "x", some "u", "d", "s", "y"⟩⟩,
         ⟨2, 1, ⟨"Fed raises rates", "x", some "u", "d", "s", "y"⟩⟩,
         ⟨3, 1, ⟨"Nvidia earnings", "x", some "u", "d", "s", "y"⟩⟩] :=
  (dedupe_by_url_only
      [⟨1, 1, ⟨"rare birds spotted", "x", some "u", "d", "s", "y"⟩⟩,
       ⟨2, 1, ⟨"Fed raises rates", "x", some "u", "d", "s", "y"⟩⟩,
       ⟨3, 1, ⟨"Nvidia earnings", "x", some "u", "d", "s", "y"⟩⟩]).2.2.2
    [⟨1, 1, ⟨"rare birds spotted", "x", some "u", "d", "s", "y"⟩⟩]
    ⟨2, 1, ⟨"Fed raises rates", "x", some "u", "d", "s", "y"⟩⟩
    [⟨3, 1, ⟨"Nvidia earnings", "x", some "u", "d", "s", "y"⟩⟩]
    rfl (by decide) (by decide)
